import Mathlib

/-!
Verification development for a minimal dependency-free HTTP server engine
(an embedded cpp-httplib-compatible facade plus a small JSON codec, a
registry loader and a deterministic resolver).

The embedding works on raw bytes modelled as `List Char` (the traffic is
ASCII; `std::string` is a byte sequence).  `std::map` values are modelled
as association lists kept sorted by the lexicographic byte order, which is
exactly the iteration order of `std::map<std::string, _>`.  C++ exceptions
are modelled with `Except Unit`.  C++ `int` arithmetic is modelled on `Int`
(no overflow is exercised by any statement below); the truncating `%` of
C++ is `Int.tmod`.
-/

abbrev Bytes := List Char

/-- The `\r\n` line terminator. -/
def crlf : Bytes := ['\r', '\n']

/-- The `\r\n\r\n` header-block terminator. -/
def crlfcrlf : Bytes := ['\r', '\n', '\r', '\n']

/-- C-locale `isspace` on ASCII bytes (space, \t, \n, \v, \f, \r). -/
def cIsSpace (c : Char) : Bool :=
  c == ' ' || c == '\t' || c == '\n' || c == '\x0b' || c == '\x0c' || c == '\r'

/-- C-locale `isdigit`. -/
def cIsDigit (c : Char) : Bool :=
  '0' ≤ c && c ≤ '9'

/-- C-locale `tolower` on ASCII bytes: only `A`..`Z` move. -/
def cToLower (c : Char) : Char :=
  if 'A' ≤ c ∧ c ≤ 'Z' then Char.ofNat (c.toNat + 32) else c

/-- C-locale `toupper` on ASCII bytes: only `a`..`z` move. -/
def cToUpper (c : Char) : Char :=
  if 'a' ≤ c ∧ c ≤ 'z' then Char.ofNat (c.toNat - 32) else c

/-- Does `need` occur at the very front of `hay`? (prefix test). -/
def leadsWith : Bytes → Bytes → Bool
  | [], _ => true
  | _ :: _, [] => false
  | n :: ns, h :: hs => if n == h then leadsWith ns hs else false

/-- `hay.find(need) != npos`: does `need` occur anywhere inside `hay`? -/
def hasSub (need : Bytes) : Bytes → Bool
  | [] => need.isEmpty
  | c :: t => leadsWith need (c :: t) || hasSub need t

/-- `hay.find(need)`: index of the first occurrence of `need` in `hay`. -/
def findSubIdx (need : Bytes) : Bytes → Option Nat
  | [] => if need.isEmpty then some 0 else none
  | c :: t => if leadsWith need (c :: t) then some 0 else (findSubIdx need t).map (· + 1)

/-- Split on each first occurrence of `\r\n`, exactly as the scanning loops
of the server do (a trailing fragment without a terminator is kept). -/
def splitCRLF : Bytes → List Bytes
  | [] => [[]]
  | '\r' :: '\n' :: rest => [] :: splitCRLF rest
  | c :: rest =>
    match splitCRLF rest with
    | [] => [[c]]
    | l :: ls => (c :: l) :: ls

/-- `Server::trim`: strip C-locale whitespace from both ends. -/
def trim (value : Bytes) : Bytes :=
  ((value.dropWhile cIsSpace).reverse.dropWhile cIsSpace).reverse

/-- `Server::case_insensitive_equal`. -/
def case_insensitive_equal : Bytes → Bytes → Bool
  | [], [] => true
  | a :: as, b :: bs => cToLower a == cToLower b && case_insensitive_equal as bs
  | _, _ => false

/-- Value of a block of decimal digit characters, most significant first. -/
def digitsVal (ds : Bytes) : Nat :=
  ds.foldl (fun acc c => acc * 10 + (c.toNat - 48)) 0

/-- Leading whitespace and an optional sign, as consumed by `strtoull` and
`stoi`; returns the sign flag and the rest. -/
def stripSign (s : Bytes) : Bool × Bytes :=
  let s1 := s.dropWhile cIsSpace
  match s1 with
  | '-' :: t => (true, t)
  | '+' :: t => (false, t)
  | _ => (false, s1)

/-- `std::strtoull(value, nullptr, 10)`: skips whitespace and an optional
sign, converts the leading run of digits (0 if there is none), saturates at
`ULLONG_MAX` on overflow, and negates modulo 2^64 under a minus sign. -/
def strtoullM (s : Bytes) : Nat :=
  let (neg, s2) := stripSign s
  let ds := s2.takeWhile cIsDigit
  if ds.isEmpty then 0
  else
    let v := min (digitsVal ds) (2 ^ 64 - 1)
    if neg then (2 ^ 64 - v) % 2 ^ 64 else v

/-- `std::stoi`: like `strtol` base 10 but throws `invalid_argument` when no
digits are found and `out_of_range` outside `int`. -/
def stoiM (s : Bytes) : Except Unit Int :=
  let (neg, s2) := stripSign s
  let ds := s2.takeWhile cIsDigit
  if ds.isEmpty then .error ()
  else
    let v : Int := (digitsVal ds : Int)
    let v := if neg then -v else v
    if v < -2147483648 ∨ 2147483647 < v then .error () else .ok v

/-- Decimal digits of a nonnegative integer (`std::ostream <<` on size_t). -/
def natChars (n : Nat) : Bytes := Nat.toDigits 10 n

/-- Decimal rendering of an `int` (`std::ostream <<`). -/
def intChars (i : Int) : Bytes :=
  if i < 0 then '-' :: natChars i.natAbs else natChars i.toNat

/-- Lexicographic strict order on byte strings: `std::string operator<`. -/
def bytesLt : Bytes → Bytes → Bool
  | [], [] => false
  | [], _ :: _ => true
  | _ :: _, [] => false
  | a :: as, b :: bs => if a < b then true else if b < a then false else bytesLt as bs

/-- Lookup in a `std::map` modelled as an association list (byte keys). -/
def mapFind {α : Type} (k : Bytes) : List (Bytes × α) → Option α
  | [] => none
  | (k2, v2) :: rest => if k == k2 then some v2 else mapFind k rest

/-- `std::map::operator[] = v`: ordered insert, overwriting an equal key. -/
def mapInsert {α : Type} (k : Bytes) (v : α) : List (Bytes × α) → List (Bytes × α)
  | [] => [(k, v)]
  | (k2, v2) :: rest =>
    if bytesLt k k2 then (k, v) :: (k2, v2) :: rest
    else if bytesLt k2 k then (k2, v2) :: mapInsert k v rest
    else (k, v) :: rest

/-- Keys strictly ascend (the invariant of the `std::map` model). -/
def sortedKeys {α : Type} : List (Bytes × α) → Bool
  | [] => true
  | [_] => true
  | a :: b :: t => bytesLt a.1 b.1 && sortedKeys (b :: t)

/-! ### The resolver (src/core/Resolver.hpp and src/core/Models.hpp) -/

/-- `Node`: canonical request payload for the resolver. -/
structure Node where
  title : Bytes
  arcana : Bytes
  seed : Int
  timestamp : Bytes
deriving DecidableEq

/-- `pythag_sum`: map alphabetic letters to their positions and sum them. -/
def pythag_sum (s : Bytes) : Int :=
  s.foldl (fun sum c =>
    let upper := cToUpper c
    if 'A' ≤ upper ∧ upper ≤ 'Z' then sum + (upper.toNat - 'A'.toNat + 1) else sum) 0

/-- `sum_digits`: sum the decimal digits embedded in the string. -/
def sum_digits (s : Bytes) : Int :=
  s.foldl (fun sum c => if cIsDigit c then sum + ((c.toNat : Int) - 48) else sum) 0

/-- `day_mod_36`: placeholder that always returns 0. -/
def day_mod_36 (_iso : Bytes) : Int := 0

/-- `Resolver::resolve`: the scoring function. C++ `%` on `int` truncates
toward zero, hence `Int.tmod`. -/
def resolve (n : Node) : Int :=
  let A := pythag_sum n.title
  let B := sum_digits n.arcana
  let C := day_mod_36 n.timestamp
  let score := 3 * A + 2 * B + 2 * (C * 2) + Int.tmod n.seed 72
  Int.tmod score 72 + 1

/-! ### The HTTP server facade (include/httplib.h) -/

/-- `httplib::Request`. -/
structure Request where
  method : Bytes
  path : Bytes
  body : Bytes
  headers : List (Bytes × Bytes)
deriving DecidableEq

/-- `httplib::Response` (default status 200, empty body and headers). -/
structure Response where
  status : Int := 200
  body : Bytes := []
  headers : List (Bytes × Bytes) := []
deriving DecidableEq

/-- `Response::set_content`. -/
def Response.set_content (res : Response) (value content_type : Bytes) : Response :=
  { res with body := value, headers := mapInsert ("Content-Type".toList) content_type res.headers }

/-- `Response::set_header`. -/
def Response.set_header (res : Response) (key value : Bytes) : Response :=
  { res with headers := mapInsert key value res.headers }

/-- `httplib::Handler`: a synchronous callable mutating the response. -/
def Handler : Type := Request → Response → Response

/-- The per-instance routing and mount state of `httplib::Server`.  The
mount configuration defaults mirror the member initialisers
`mount_point_{"/"}` and `mount_dir_{"."}`. -/
structure ServerState where
  get_handlers_ : List (Bytes × Handler)
  post_handlers_ : List (Bytes × Handler)
  mount_point_ : Bytes := "/".toList
  mount_dir_ : Bytes := ".".toList

/-- `Server::set_mount_point`: unconditionally stores the pair, returns true. -/
def set_mount_point (mount_point dir : Bytes) (st : ServerState) : Bool × ServerState :=
  (true, { st with mount_point_ := mount_point, mount_dir_ := dir })

/-- `Server::Get` registration. -/
def serverGet (pattern : Bytes) (handler : Handler) (st : ServerState) : ServerState :=
  { st with get_handlers_ := mapInsert pattern handler st.get_handlers_ }

/-- `Server::Post` registration. -/
def serverPost (pattern : Bytes) (handler : Handler) (st : ServerState) : ServerState :=
  { st with post_handlers_ := mapInsert pattern handler st.post_handlers_ }

/-- `Server::strip_query`: cut everything from the first `?`. -/
def strip_query (path : Bytes) : Bytes :=
  match path.findIdx? (· == '?') with
  | none => path
  | some q => path.take q

/-- `Server::ends_with`: case-insensitive suffix test. -/
def ends_with (value suffix : Bytes) : Bool :=
  suffix.length ≤ value.length &&
    case_insensitive_equal suffix (value.drop (value.length - suffix.length))

/-- `Server::detect_mime`: suffix lookup table. -/
def detect_mime (path : Bytes) : Bytes :=
  if ends_with path (".html".toList) then "text/html".toList
  else if ends_with path (".css".toList) then "text/css".toList
  else if ends_with path (".js".toList) then "application/javascript".toList
  else if ends_with path (".json".toList) then "application/json".toList
  else if ends_with path (".txt".toList) then "text/plain".toList
  else "application/octet-stream".toList

/-- `Server::ensure_default_headers`: default the Content-Type to
text/plain when a handler set none. -/
def ensure_default_headers (res : Response) : Response :=
  if (mapFind ("Content-Type".toList) res.headers).isSome then res
  else { res with headers := mapInsert ("Content-Type".toList) ("text/plain".toList) res.headers }

/-- The filesystem as seen by `std::ifstream`: full path to file bytes,
`none` when the file does not open. -/
def Fs : Type := Bytes → Option Bytes

/-- `Server::serve_file`: join the mount directory and the relative path,
read the file; `none` models the `return false` (response untouched). -/
def serve_file (fs : Fs) (mount_dir relative_path : Bytes) (res : Response) : Option Response :=
  let full := (if mount_dir ≠ [] ∧ mount_dir.getLast? ≠ some '/'
               then mount_dir ++ ['/'] else mount_dir) ++ relative_path
  match fs full with
  | none => none
  | some content =>
    some (Response.set_header { res with body := content, status := 200 }
      ("Content-Type".toList) (detect_mime relative_path))

/-- The remainder computed by `Server::dispatch` for the static branch:
strip the mount prefix, one leading slash, and default to `index.html`. -/
def relativeOf (mount_point path : Bytes) : Bytes :=
  let relative := path.drop mount_point.length
  let relative := match relative with
    | '/' :: t => t
    | _ => relative
  if relative.isEmpty then "index.html".toList else relative

/-- The route table chosen by `Server::dispatch`: the POST table exactly
when the method is "POST", the GET table for every other method. -/
def selectedHandlers (st : ServerState) (request : Request) : List (Bytes × Handler) :=
  if request.method == "POST".toList then st.post_handlers_ else st.get_handlers_

/-- `Server::dispatch`: route to a handler, else fall to the static mount.
The returned flag is the C++ return value; the response carries the
mutations. -/
def dispatch (st : ServerState) (fs : Fs) (request : Request) (response : Response) :
    Bool × Response :=
  let path := strip_query request.path
  match mapFind path (selectedHandlers st request) with
  | some h => (true, ensure_default_headers (h request response))
  | none =>
    if st.mount_point_.isEmpty then
      (false, { response with status := 404, body := "not_found".toList })
    else if path == st.mount_point_ then
      match serve_file fs st.mount_dir_ ("index.html".toList) response with
      | some r => (true, ensure_default_headers r)
      | none => (false, { response with status := 404, body := "not_found".toList })
    else if leadsWith st.mount_point_ path then
      let relative := relativeOf st.mount_point_ path
      if hasSub ("..".toList) relative then
        (false, { response with status := 403, body := "forbidden".toList })
      else
        match serve_file fs st.mount_dir_ relative response with
        | some r => (true, ensure_default_headers r)
        | none => (false, { response with status := 404, body := "not_found".toList })
    else
      (false, { response with status := 404, body := "not_found".toList })

/-- `Server::status_message`: the reason-phrase table, "OK" by default. -/
def status_message (status : Int) : Bytes :=
  if status == 200 then "OK".toList
  else if status == 201 then "Created".toList
  else if status == 204 then "No Content".toList
  else if status == 400 then "Bad Request".toList
  else if status == 403 then "Forbidden".toList
  else if status == 404 then "Not Found".toList
  else if status == 500 then "Internal Server Error".toList
  else if status == 503 then "Service Unavailable".toList
  else "OK".toList

/-- `Server::send_response`: the exact bytes written to the socket. -/
def send_response (res : Response) : Bytes :=
  "HTTP/1.1 ".toList ++ intChars res.status ++ [' '] ++ status_message res.status ++ crlf
    ++ (res.headers.map (fun entry => entry.1 ++ ": ".toList ++ entry.2 ++ crlf)).flatten
    ++ "Content-Length: ".toList ++ natChars res.body.length ++ crlf
    ++ "Connection: close".toList ++ crlf ++ crlf
    ++ res.body

/-- `Server::send_error`: an error reply built on a fresh response. -/
def send_error (status : Int) (message : Bytes) : Bytes :=
  send_response (Response.set_content { status := status } message ("text/plain".toList))

/-- Guard of the branch of `Server::dispatch` that answers 404 because the
mount point is empty: true exactly when the route lookup misses and
`mount_point_` is the empty string. -/
def emptyMountMiss (st : ServerState) (request : Request) : Bool :=
  (mapFind (strip_query request.path) (selectedHandlers st request)).isNone
    && st.mount_point_.isEmpty

/-- A handler whose effect is visible in the body (for concrete routing
scenarios). -/
def demoHandler : Handler := fun _ res => { res with body := "hit".toList }

/-- A server with one GET route at `/x` and nothing else registered. -/
def demoServer : ServerState :=
  { get_handlers_ := [("/x".toList, demoHandler)], post_handlers_ := [] }

/-- A filesystem with no readable files. -/
def emptyFs : Fs := fun _ => none

/-- Key `x` is strictly below the first key of the map (vacuously true on
an empty map); the head condition of the sortedness invariant. -/
def ltHead {α : Type} (x : Bytes) : List (Bytes × α) → Bool
  | [] => true
  | q :: _ => bytesLt x q.1

/-! ### Framing and parsing (Server::read_request / parse_request) -/

/-- `Server::ParsedRequest`. -/
structure ParsedRequest where
  request : Request
  header_end : Nat
  content_length : Nat
deriving DecidableEq

/-- One `istringstream >> token` step: skip whitespace, read until
whitespace; returns the token and the rest. -/
def nextTok (s : Bytes) : Bytes × Bytes :=
  let s1 := s.dropWhile cIsSpace
  (s1.takeWhile (fun c => !cIsSpace c), s1.dropWhile (fun c => !cIsSpace c))

/-- The scanning loop of `Server::extract_content_length` over the split
header lines: the first line whose trimmed key before the colon equals
`Content-Length` case-insensitively decides the value via `strtoull`. -/
def extractGo : List Bytes → Nat
  | [] => 0
  | line :: rest =>
    match line.findIdx? (· == ':') with
    | none => extractGo rest
    | some colon =>
      if case_insensitive_equal (trim (line.take colon)) ("Content-Length".toList)
      then strtoullM (trim (line.drop (colon + 1)))
      else extractGo rest

/-- `Server::extract_content_length`. -/
def extract_content_length (headers : Bytes) : Nat :=
  extractGo (splitCRLF headers)

/-- The header loop of `Server::parse_request`: from position `pos` up to
`header_end`, split each `\r\n` line on its first colon, trim key and
value, and insert (later duplicates overwrite).  The structural fuel
argument only bounds the iteration count; every iteration advances `pos`
by at least 2, so fuel `he + 1` can never run out while `pos < he`. -/
def header_lines_go (raw : Bytes) (he : Nat) : Nat → Nat → List (Bytes × Bytes) →
    List (Bytes × Bytes)
  | 0, _, hdrs => hdrs
  | fuel + 1, pos, hdrs =>
    if pos < he then
      match findSubIdx crlf (raw.drop pos) with
      | none => hdrs
      | some off =>
        if he < pos + off then hdrs
        else
          let line := (raw.drop pos).take off
          let hdrs2 := match line.findIdx? (· == ':') with
            | none => hdrs
            | some colon =>
              mapInsert (trim (line.take colon)) (trim (line.drop (colon + 1))) hdrs
          header_lines_go raw he fuel (pos + off + 2) hdrs2
    else hdrs

/-- `Server::parse_request`: request line (method, target, ignored
version), header lines, then the body as the `content_length`-byte slice
after the terminator. -/
def parse_request (raw : Bytes) (he cl : Nat) : Option ParsedRequest :=
  match findSubIdx crlf raw with
  | none => none
  | some line_end =>
    let request_line := raw.take line_end
    let t1 := nextTok request_line
    let t2 := nextTok t1.2
    if t1.1.isEmpty || t2.1.isEmpty then none
    else
      some { request := { method := t1.1, path := t2.1,
                          body := (raw.drop (he + 4)).take cl,
                          headers := header_lines_go raw he (he + 1) (line_end + 2) [] },
             header_end := he, content_length := cl }

/-- The read loop of `Server::read_request`.  The wire is modelled as the
list of byte blocks the successive `recv(4096)` calls return; an empty
block is a zero-byte read (peer closed).  State: the accumulated buffer
and, once the `\r\n\r\n` terminator was located, its index and the
extracted Content-Length. -/
def read_loop : List Bytes → Bytes → Option (Nat × Nat) → Bytes × Option (Nat × Nat)
  | [], buffer, st => (buffer, st)
  | c :: rest, buffer, st =>
    if c.isEmpty then (buffer, st)
    else
      let buffer2 := buffer ++ c
      let st2 := match st with
        | some s => some s
        | none =>
          match findSubIdx crlfcrlf buffer2 with
          | some he => some (he, extract_content_length (buffer2.take (he + 2)))
          | none => none
      match st2 with
      | some (he, cl) =>
        if he + 4 + cl ≤ buffer2.length then (buffer2, some (he, cl))
        else if c.length < 4096 then (buffer2, some (he, cl))
        else read_loop rest buffer2 (some (he, cl))
      | none =>
        if c.length < 4096 then (buffer2, none)
        else read_loop rest buffer2 none

/-- `Server::read_request`: run the loop, re-locate the terminator if it
was never found, check the buffer holds the whole declared body, parse. -/
def read_request (chunks : List Bytes) : Option ParsedRequest :=
  let r := read_loop chunks [] none
  let buffer := r.1
  if buffer.isEmpty then none
  else
    match r.2 with
    | some (he, cl) =>
      if buffer.length < he + 4 + cl then none else parse_request buffer he cl
    | none =>
      match findSubIdx crlfcrlf buffer with
      | none => none
      | some he =>
        let cl := extract_content_length (buffer.take (he + 2))
        if buffer.length < he + 4 + cl then none else parse_request buffer he cl

/-- Every block except possibly the last has the full chunk size 4096:
the partitions on which the read loop never hits its early-exit
heuristic before the request is complete. -/
def fullButLast : List Bytes → Bool
  | [] => true
  | [_] => true
  | c :: rest => (c.length == 4096) && fullButLast rest

/-- The loop-state consistency invariant of `read_loop`: once the state
holds a terminator index and length, they are the first terminator of the
current buffer and the Content-Length extracted from it. -/
def stInv (B : Bytes) : Option (Nat × Nat) → Prop
  | none => True
  | some (he, cl) =>
    findSubIdx crlfcrlf B = some he ∧ cl = extract_content_length (B.take (he + 2))

/-! ### The JSON codec (include/json.hpp)

`number_t` is `double` in the source.  It is modelled as an exact fraction
(`JNum`): every number appearing in the program's contracts is a small
integer, which `double` represents exactly; IEEE rounding of non-integral
literals is not modelled. -/

/-- The numeric payload of a JSON value: an exact fraction standing for
the C++ `double` (numerator, positive power-of-ten denominator). -/
structure JNum where
  num : Int
  den : Nat
deriving DecidableEq

/-- Is the stored number an integer (`std::floor(n) == n`)? -/
def jnumIsInt (q : JNum) : Bool :=
  Int.emod q.num (q.den : Int) == 0

/-- `static_cast<long long> / static_cast<int>` of the double: truncation
toward zero (overflow beyond the C++ type is not modelled). -/
def jnumToInt (q : JNum) : Int :=
  Int.tdiv q.num (q.den : Int)

/-- At most `fuel` decimal fraction digits of `rem/den`, stopping at 0
remainder (the digits a stream prints for a terminating fraction). -/
def jnumFracDigits : Nat → Nat → Nat → Bytes
  | 0, _, _ => []
  | fuel + 1, rem, den =>
    if rem == 0 then []
    else
      let r := rem * 10
      Char.ofNat (48 + r / den) :: jnumFracDigits fuel (r % den) den

/-- Exactly `fuel` decimal fraction digits (fixed format). -/
def jnumFracFixed : Nat → Nat → Nat → Bytes
  | 0, _, _ => []
  | fuel + 1, rem, den =>
    let r := rem * 10
    Char.ofNat (48 + r / den) :: jnumFracFixed fuel (r % den) den

/-- `dump` of a number: `oss.precision(15) << value`.  Integral values
print as plain integers (the only case the handlers produce); non-integral
values are approximated by up to 15 fraction digits.  The `isfinite`
fallback of the source is unreachable here: exact fractions are always
finite, and `stod` overflow throws during parsing instead. -/
def jnumChars (q : JNum) : Bytes :=
  if jnumIsInt q then intChars (jnumToInt q)
  else
    let sgn : Bytes := if q.num < 0 then ['-'] else []
    let a := q.num.natAbs
    sgn ++ natChars (a / q.den) ++ '.' :: jnumFracDigits 15 (a % q.den) q.den

/-- `std::to_string(double)`: fixed format with 6 decimals (rounding of
the last digit is not modelled; unused by every statement below). -/
def jnumFixed6 (q : JNum) : Bytes :=
  let sgn : Bytes := if q.num < 0 then ['-'] else []
  let a := q.num.natAbs
  sgn ++ natChars (a / q.den) ++ '.' :: jnumFracFixed 6 (a % q.den) q.den

/-- `nlohmann::json`: the minimal value tree. -/
inductive Json where
  | null
  | bool (b : Bool)
  | num (v : JNum)
  | str (s : Bytes)
  | arr (items : List Json)
  | obj (fields : List (Bytes × Json))

/-- `object_t::emplace` during parsing: ordered insert that keeps the
existing entry on a duplicate key (first wins, unlike `operator[]`). -/
def objInsert (k : Bytes) (v : Json) : List (Bytes × Json) → List (Bytes × Json)
  | [] => [(k, v)]
  | (k2, v2) :: rest =>
    if bytesLt k k2 then (k, v) :: (k2, v2) :: rest
    else if bytesLt k2 k then (k2, v2) :: objInsert k v rest
    else (k2, v2) :: rest

/-- `is_object()`. -/
def jsonIsObj : Json → Bool
  | .obj _ => true
  | _ => false

/-- The escape switch of `Parser::parse_string_body`, case by case. -/
def escChar (esc : Char) : Option Char :=
  if esc == '"' then some '"'
  else if esc == '\\' then some '\\'
  else if esc == '/' then some '/'
  else if esc == 'b' then some '\x08'
  else if esc == 'f' then some '\x0c'
  else if esc == 'n' then some '\n'
  else if esc == 'r' then some '\r'
  else if esc == 't' then some '\t'
  else none

/-- `Parser::parse_string_body`: consume until the closing quote,
translating escapes; unterminated input or an unsupported escape throws. -/
def parseStringBody : Bytes → Except Unit (Bytes × Bytes)
  | [] => .error ()
  | '"' :: rest => .ok ([], rest)
  | ['\\'] => .error ()
  | '\\' :: e :: rest2 =>
    match escChar e with
    | none => .error ()
    | some c =>
      match parseStringBody rest2 with
      | .error u => .error u
      | .ok (body, rem) => .ok (c :: body, rem)
  | c :: rest =>
    match parseStringBody rest with
    | .error u => .error u
    | .ok (body, rem) => .ok (c :: body, rem)

/-- The lexeme scan of `Parser::parse_number`: optional minus, digits,
optional fraction digits, optional exponent; returns lexeme and rest. -/
def scanNumber (s : Bytes) : Bytes × Bytes :=
  let (sign, s1) := match s with
    | '-' :: t => ((['-'] : Bytes), t)
    | _ => (([] : Bytes), s)
  let d1 := s1.takeWhile cIsDigit
  let r1 := s1.dropWhile cIsDigit
  let (dot, d2, r2) := match r1 with
    | '.' :: t => ((['.'] : Bytes), t.takeWhile cIsDigit, t.dropWhile cIsDigit)
    | _ => (([] : Bytes), ([] : Bytes), r1)
  let (ex, r3) := match r2 with
    | 'e' :: '+' :: t => ('e' :: '+' :: t.takeWhile cIsDigit, t.dropWhile cIsDigit)
    | 'e' :: '-' :: t => ('e' :: '-' :: t.takeWhile cIsDigit, t.dropWhile cIsDigit)
    | 'e' :: t => ('e' :: t.takeWhile cIsDigit, t.dropWhile cIsDigit)
    | 'E' :: '+' :: t => ('E' :: '+' :: t.takeWhile cIsDigit, t.dropWhile cIsDigit)
    | 'E' :: '-' :: t => ('E' :: '-' :: t.takeWhile cIsDigit, t.dropWhile cIsDigit)
    | 'E' :: t => ('E' :: t.takeWhile cIsDigit, t.dropWhile cIsDigit)
    | _ => (([] : Bytes), r2)
  (sign ++ d1 ++ dot ++ d2 ++ ex, r3)

/-- The exact magnitude from which `strtod` overflows to infinity and sets
ERANGE: values at or above the round-to-nearest midpoint between the
largest double `(2^53 - 1) * 2^971` and `2^1024` round away from `DBL_MAX`
(the tie goes to the even `2^1024`, which is not representable). -/
def stodOverflows (q : JNum) : Bool :=
  (((2 ^ 1024 - 2 ^ 970 : Nat) : Int)) * (q.den : Int) ≤ q.num

/-- The exact magnitude below which a nonzero `strtod` result is subnormal
or zero, setting ERANGE (glibc flags every such underflow): values under
the midpoint between the largest subnormal and `DBL_MIN = 2^-1022`, which
is `(2^53 - 1) / 2^1075`, round below the smallest normalized double. -/
def stodUnderflows (q : JNum) : Bool :=
  q.num ≠ 0 && q.num * ((2 ^ 1075 : Nat) : Int) < (((2 ^ 53 - 1 : Nat) : Int)) * (q.den : Int)

/-- `std::stod` on a scanned lexeme, as an exact fraction: invalid when
the mantissa holds no digit (exponent digits may be absent, matching
`strtod` accepting `5e` as 5), out of range when the value overflows
double to infinity or underflows to a subnormal or zero — both make
`std::stod` throw, and the exception escapes `json::parse`. -/
def lexToNum (lex : Bytes) : Except Unit JNum :=
  let (neg, s1) := match lex with
    | '-' :: t => (true, t)
    | _ => (false, lex)
  let d1 := s1.takeWhile cIsDigit
  let r1 := s1.dropWhile cIsDigit
  let (d2, r2) := match r1 with
    | '.' :: t => (t.takeWhile cIsDigit, t.dropWhile cIsDigit)
    | _ => (([] : Bytes), r1)
  if d1.isEmpty && d2.isEmpty then .error ()
  else
    let (epos, edigits) := match r2 with
      | 'e' :: '+' :: t => (true, t.takeWhile cIsDigit)
      | 'e' :: '-' :: t => (false, t.takeWhile cIsDigit)
      | 'e' :: t => (true, t.takeWhile cIsDigit)
      | 'E' :: '+' :: t => (true, t.takeWhile cIsDigit)
      | 'E' :: '-' :: t => (false, t.takeWhile cIsDigit)
      | 'E' :: t => (true, t.takeWhile cIsDigit)
      | _ => (true, ([] : Bytes))
    let mantNum : Int := ((digitsVal d1 * 10 ^ d2.length + digitsVal d2 : Nat) : Int)
    let mantDen : Nat := 10 ^ d2.length
    let e := digitsVal edigits
    let q : JNum := if epos then ⟨mantNum * ((10 ^ e : Nat) : Int), mantDen⟩
                    else ⟨mantNum, mantDen * 10 ^ e⟩
    if stodOverflows q || stodUnderflows q then .error ()
    else .ok (if neg then ⟨-q.num, q.den⟩ else q)

/-- `Parser::consume_literal`. -/
def consumeLit : Bytes → Bytes → Except Unit Bytes
  | [], s => .ok s
  | _ :: _, [] => .error ()
  | l :: lt, c :: ct => if c == l then consumeLit lt ct else .error ()

mutual

/-- `Parser::parse_value`.  The structural fuel argument only bounds the
recursion; every recursive call consumes at least one input byte first, so
the fuel `2 * length + 8` used by `jparse` can never run out. -/
def jparseVal : Nat → Bytes → Except Unit (Json × Bytes)
  | 0, _ => .error ()
  | fuel + 1, s =>
    let s1 := s.dropWhile cIsSpace
    match s1 with
    | [] => .error ()
    | c :: rest =>
      if c == '"' then
        match parseStringBody rest with
        | .error u => .error u
        | .ok (body, rem) => .ok (Json.str body, rem)
      else if c == '\x7b' then
        let s2 := rest.dropWhile cIsSpace
        match s2 with
        | '\x7d' :: r2 => .ok (Json.obj [], r2)
        | _ => jparseObjLoop fuel s2 []
      else if c == '[' then
        let s2 := rest.dropWhile cIsSpace
        match s2 with
        | ']' :: r2 => .ok (Json.arr [], r2)
        | _ => jparseArrLoop fuel s2 []
      else if c == 't' then
        match consumeLit ("true".toList) s1 with
        | .error u => .error u
        | .ok rem => .ok (Json.bool true, rem)
      else if c == 'f' then
        match consumeLit ("false".toList) s1 with
        | .error u => .error u
        | .ok rem => .ok (Json.bool false, rem)
      else if c == 'n' then
        match consumeLit ("null".toList) s1 with
        | .error u => .error u
        | .ok rem => .ok (Json.null, rem)
      else
        let p := scanNumber s1
        match lexToNum p.1 with
        | .error u => .error u
        | .ok q => .ok (Json.num q, p.2)

/-- The member loop of `Parser::parse_object` (after the opening brace and
empty-object check): key string, colon, value, then comma or closing
brace. -/
def jparseObjLoop : Nat → Bytes → List (Bytes × Json) → Except Unit (Json × Bytes)
  | 0, _, _ => .error ()
  | fuel + 1, s, acc =>
    let s1 := s.dropWhile cIsSpace
    match s1 with
    | '"' :: r1 =>
      match parseStringBody r1 with
      | .error u => .error u
      | .ok (key, r2) =>
        match r2.dropWhile cIsSpace with
        | ':' :: r4 =>
          match jparseVal fuel r4 with
          | .error u => .error u
          | .ok (v, r5) =>
            let acc2 := objInsert key v acc
            match r5.dropWhile cIsSpace with
            | '\x7d' :: r7 => .ok (Json.obj acc2, r7)
            | ',' :: r7 => jparseObjLoop fuel r7 acc2
            | _ => .error ()
        | _ => .error ()
    | _ => .error ()

/-- The element loop of `Parser::parse_array` (after the opening bracket
and empty-array check). -/
def jparseArrLoop : Nat → Bytes → List Json → Except Unit (Json × Bytes)
  | 0, _, _ => .error ()
  | fuel + 1, s, acc =>
    match jparseVal fuel s with
    | .error u => .error u
    | .ok (v, r1) =>
      let acc2 := acc ++ [v]
      match r1.dropWhile cIsSpace with
      | ']' :: r3 => .ok (Json.arr acc2, r3)
      | ',' :: r3 => jparseArrLoop fuel r3 acc2
      | _ => .error ()

end

/-- `json::parse`: parse one value, then reject trailing non-whitespace. -/
def jparse (s : Bytes) : Except Unit Json :=
  match jparseVal (2 * s.length + 8) s with
  | .error u => .error u
  | .ok (v, rem) =>
    if (rem.dropWhile cIsSpace).isEmpty then .ok v else .error ()

/-- The string-escaping switch of `dump_impl` for one byte. -/
def dumpEscChar (c : Char) : Bytes :=
  if c == '"' then '\\' :: ['"']
  else if c == '\\' then '\\' :: ['\\']
  else if c == '\x08' then '\\' :: ['b']
  else if c == '\x0c' then '\\' :: ['f']
  else if c == '\n' then '\\' :: ['n']
  else if c == '\r' then '\\' :: ['r']
  else if c == '\t' then '\\' :: ['t']
  else [c]

/-- The string escaping loop of `dump_impl`. -/
def dumpEsc (s : Bytes) : Bytes :=
  (s.map dumpEscChar).flatten

/-- Compact-mode element separator join of `dump_impl` (elements are
separated by a comma and one space when no indent was requested). -/
def joinCommaSp : List Bytes → Bytes
  | [] => []
  | [x] => x
  | x :: y :: t => x ++ [',', ' '] ++ joinCommaSp (y :: t)

/-- `json::dump()` (the compact, indent-free mode, the only one the
program calls): objects emit sorted keys as `"key":value` joined by
comma-space. -/
def jdump : Json → Bytes
  | .null => "null".toList
  | .bool b => if b then "true".toList else "false".toList
  | .num q => jnumChars q
  | .str s => '"' :: (dumpEsc s ++ ['"'])
  | .arr items => '[' :: (joinCommaSp (items.attach.map fun x => jdump x.1) ++ [']'])
  | .obj fields =>
    '\x7b' :: (joinCommaSp (fields.attach.map fun f =>
      '"' :: (dumpEsc f.1.1 ++ ['"', ':']) ++ jdump f.1.2) ++ ['\x7d'])
decreasing_by
  · simp only [Json.arr.sizeOf_spec]
    have := List.sizeOf_lt_of_mem x.2
    omega
  · simp only [Json.obj.sizeOf_spec]
    rcases f with ⟨⟨k, v⟩, hf⟩
    have := List.sizeOf_lt_of_mem hf
    simp only [Prod.mk.sizeOf_spec] at this
    simp only
    omega

/-- `json::get<std::string>`: permissive coercion. -/
def jgetString (j : Json) : Bytes :=
  match j with
  | .str s => s
  | .num q => if jnumIsInt q then intChars (jnumToInt q) else jnumFixed6 q
  | .bool b => if b then "true".toList else "false".toList
  | _ => []

/-- `json::get<int>`: numbers truncate, strings go through `std::stoi`
(which throws on a non-numeric string), everything else is 0. -/
def jgetInt (j : Json) : Except Unit Int :=
  match j with
  | .num q => .ok (jnumToInt q)
  | .str s => stoiM s
  | _ => .ok 0

/-- `json::value<std::string>(key, default)`. -/
def jvalueString (j : Json) (key dflt : Bytes) : Bytes :=
  match j with
  | .obj fields =>
    match mapFind key fields with
    | none => dflt
    | some v => jgetString v
  | _ => dflt

/-- `json::value<int>(key, default)`. -/
def jvalueInt (j : Json) (key : Bytes) (dflt : Int) : Except Unit Int :=
  match j with
  | .obj fields =>
    match mapFind key fields with
    | none => .ok dflt
    | some v => jgetInt v
  | _ => .ok dflt

/-- `json::get<Node>` (the specialization in Models.hpp): field extraction
with defaults for an object, the default-constructed Node otherwise (note
its `arcana` is the empty string, not "0").  Only the `seed` extraction
can throw; the other fields are pure, so hoisting `seed` first is
observationally identical to the C++ statement order. -/
def getNode (j : Json) : Except Unit Node :=
  if jsonIsObj j then
    match jvalueInt j ("seed".toList) 33 with
    | .error u => .error u
    | .ok seed =>
      .ok { title := jvalueString j ("title".toList) [],
            arcana := jvalueString j ("arcana".toList) ("0".toList),
            seed := seed,
            timestamp := jvalueString j ("timestamp".toList) [] }
  else .ok { title := [], arcana := [], seed := 33, timestamp := [] }

/-! ### Registry loading and the web handlers (src/core/Registry.hpp,
src/web/Server.hpp) -/

/-- `Registry`: the parsed payload and the ok flag. -/
structure Registry where
  root : Json
  ok : Bool

/-- `load_registry`: the file as `none` (unreadable) or its bytes; a parse
failure falls back to the empty registry with `ok = false`. -/
def load_registry (file : Option Bytes) : Registry :=
  match file with
  | none => { root := Json.null, ok := false }
  | some content =>
    match jparse content with
    | .error _ => { root := Json.null, ok := false }
    | .ok j => { root := j, ok := true }

/-- The body `R"({"error":"no_registry"})"`. -/
def errNoRegistry : Bytes := "\x7b\"error\":\"no_registry\"\x7d".toList

/-- The body `R"({"error":"bad_json"})"`. -/
def errBadJson : Bytes := "\x7b\"error\":\"bad_json\"\x7d".toList

/-- The GET `/registry` handler of `Server::Server`. -/
def registryHandler (reg : Registry) : Handler := fun _ res =>
  if !reg.ok then
    Response.set_content { res with status := 503 } errNoRegistry ("application/json".toList)
  else
    Response.set_content res (jdump reg.root) ("application/json".toList)

/-- The payload `json{{"worker_id", id}, {"system", "raku-lite-cpp"}}`
(inserted in initializer order into the sorted object map). -/
def resolvePayload (id : Int) : Json :=
  Json.obj (mapInsert ("system".toList) (Json.str ("raku-lite-cpp".toList))
    (mapInsert ("worker_id".toList) (Json.num ⟨id, 1⟩) []))

/-- The POST `/resolve` handler of `Server::Server`: parse the body, build
the node, resolve; any exception from parsing or extraction is caught and
answered with 400 `bad_json`. -/
def resolveHandler : Handler := fun req res =>
  match jparse req.body with
  | .error _ =>
    Response.set_content { res with status := 400 } errBadJson ("application/json".toList)
  | .ok j =>
    match getNode j with
    | .error _ =>
      Response.set_content { res with status := 400 } errBadJson ("application/json".toList)
    | .ok node =>
      Response.set_content res (jdump (resolvePayload (resolve node)))
        ("application/json".toList)

/-- The GET `/core/health-check.html` handler of `Server::Server`. -/
def healthHandler : Handler := fun _ res =>
  Response.set_content res ("ok".toList) ("text/html".toList)

-- ===== Theorems =====

theorem foldl_mono_step (f : Int → Char → Int) (hf : ∀ a c, a ≤ f a c) :
    ∀ (s : Bytes) (acc : Int), acc ≤ List.foldl f acc s := by
  intro s
  induction s with
  | nil => intro acc; simp
  | cons c t ih =>
    intro acc
    simp only [List.foldl_cons]
    exact le_trans (hf acc c) (ih (f acc c))

theorem pythag_sum_nonneg (s : Bytes) : 0 ≤ pythag_sum s := by
  unfold pythag_sum
  refine foldl_mono_step _ (fun a c => ?_) s 0
  dsimp only
  split
  · rename_i h
    have hA : 'A' ≤ cToUpper c := h.1
    have : 'A'.toNat ≤ (cToUpper c).toNat := by
      simpa [Char.le_def] using hA
    omega
  · exact le_refl _

theorem sum_digits_nonneg (s : Bytes) : 0 ≤ sum_digits s := by
  unfold sum_digits
  refine foldl_mono_step _ (fun a c => ?_) s 0
  dsimp only
  split
  · rename_i h
    have hc : '0' ≤ c := by
      simpa [cIsDigit, Bool.and_eq_true, decide_eq_true_eq] using (by
        simpa [cIsDigit, Bool.and_eq_true, decide_eq_true_eq] using h : '0' ≤ c ∧ c ≤ '9').1
    have : 48 ≤ c.toNat := by
      simpa [Char.le_def] using hc
    omega
  · exact le_refl _

/-- C2: the claim says `resolve` maps every node (any integer seed) into
[1,72].  It does not: C++ `%` truncates toward zero, so a negative seed
makes the score negative and the result 0.  Concretely the node with empty
title, empty arcana and seed −1 resolves to 0, outside [1,72]. -/
theorem c2_counterexample :
    resolve ⟨[], [], -1, []⟩ = 0 ∧ ¬ (1 ≤ resolve ⟨[], [], -1, []⟩ ∧ resolve ⟨[], [], -1, []⟩ ≤ 72) := by
  decide

/-- C2 (amended): for every node whose seed is nonnegative, `resolve`
returns a worker id in [1,72]; it is a pure function of the node fields
(equal inputs trivially give equal outputs in this embedding). -/
theorem c2_amended (n : Node) (hseed : 0 ≤ n.seed) :
    1 ≤ resolve n ∧ resolve n ≤ 72 := by
  show 1 ≤ Int.tmod (3 * pythag_sum n.title + 2 * sum_digits n.arcana +
      2 * (day_mod_36 n.timestamp * 2) + Int.tmod n.seed 72) 72 + 1 ∧
    Int.tmod (3 * pythag_sum n.title + 2 * sum_digits n.arcana +
      2 * (day_mod_36 n.timestamp * 2) + Int.tmod n.seed 72) 72 + 1 ≤ 72
  have hA := pythag_sum_nonneg n.title
  have hB := sum_digits_nonneg n.arcana
  have hseed72 : 0 ≤ Int.tmod n.seed 72 := Int.tmod_nonneg 72 hseed
  have hscore : 0 ≤ 3 * pythag_sum n.title + 2 * sum_digits n.arcana +
      2 * (day_mod_36 n.timestamp * 2) + Int.tmod n.seed 72 := by
    unfold day_mod_36
    omega
  have hlo : 0 ≤ Int.tmod (3 * pythag_sum n.title + 2 * sum_digits n.arcana +
      2 * (day_mod_36 n.timestamp * 2) + Int.tmod n.seed 72) 72 :=
    Int.tmod_nonneg 72 hscore
  have hhi : Int.tmod (3 * pythag_sum n.title + 2 * sum_digits n.arcana +
      2 * (day_mod_36 n.timestamp * 2) + Int.tmod n.seed 72) 72 < 72 := by
    have := Int.tmod_lt_of_pos (3 * pythag_sum n.title + 2 * sum_digits n.arcana +
      2 * (day_mod_36 n.timestamp * 2) + Int.tmod n.seed 72) (by omega : (0:Int) < 72)
    omega
  omega

/-- C2 witness: the spec's own example node (title "AB", arcana "1",
seed 33) satisfies the amended bounds. -/
theorem c2_witness :
    1 ≤ resolve ⟨"AB".toList, "1".toList, 33, []⟩ ∧
      resolve ⟨"AB".toList, "1".toList, 33, []⟩ ≤ 72 :=
  c2_amended ⟨"AB".toList, "1".toList, 33, []⟩ (by decide)

theorem bytesLt_irrefl (a : Bytes) : bytesLt a a = false := by
  induction a with
  | nil => rfl
  | cons c t ih => simp [bytesLt, ih, lt_irrefl]

theorem bytesLt_ne {a b : Bytes} (h : bytesLt a b = true) : a ≠ b := by
  intro he
  subst he
  rw [bytesLt_irrefl] at h
  exact Bool.false_ne_true h

theorem bytesLt_conn {a b : Bytes} (hab : bytesLt a b = false) (hba : bytesLt b a = false) :
    a = b := by
  induction a generalizing b with
  | nil =>
    cases b with
    | nil => rfl
    | cons c t => simp [bytesLt] at hab
  | cons c t ih =>
    cases b with
    | nil => simp [bytesLt] at hba
    | cons d u =>
      simp only [bytesLt] at hab hba
      by_cases h1 : c < d
      · simp [h1] at hab
      · by_cases h2 : d < c
        · simp [h1, h2] at hba
        · have : c = d := le_antisymm (not_lt.mp h2) (not_lt.mp h1)
          subst this
          simp [lt_irrefl] at hab hba
          rw [ih hab hba]

theorem mapFind_mapInsert_self {α : Type} (k : Bytes) (v : α) (m : List (Bytes × α)) :
    mapFind k (mapInsert k v m) = some v := by
  induction m with
  | nil => simp [mapInsert, mapFind]
  | cons p rest ih =>
    obtain ⟨k2, v2⟩ := p
    by_cases h1 : bytesLt k k2 = true
    · simp [mapInsert, h1, mapFind]
    · by_cases h2 : bytesLt k2 k = true
      · have hne : k ≠ k2 := fun he => (bytesLt_ne h2) he.symm
        have : (k == k2) = false := beq_eq_false_iff_ne.mpr hne
        simp [mapInsert, h1, h2, mapFind, this, ih]
      · simp [mapInsert, h1, h2, mapFind]

/-- C1: the claim says only method "GET" or "POST" can select a handler and
any other method is an automatic miss.  The code instead uses the GET table
for every method other than "POST": a PUT request to the GET route `/x`
matches and runs the registered handler instead of falling through. -/
theorem c1_counterexample :
    (dispatch demoServer emptyFs ⟨"PUT".toList, "/x".toList, [], []⟩ {}).1 = true ∧
      (dispatch demoServer emptyFs ⟨"PUT".toList, "/x".toList, [], []⟩ {}).2.body = "hit".toList := by
  constructor <;> rfl

/-- C1 (amended): the router selects the POST table exactly when the method
is "POST" and the GET table for every other method string (GET, PUT,
DELETE, ...); whichever table is selected, an exact path match runs that
handler. -/
theorem c1_amended :
    (∀ (st : ServerState) (fs : Fs) (req : Request) (res : Response) (h : Handler),
        req.method ≠ "POST".toList →
        mapFind (strip_query req.path) st.get_handlers_ = some h →
        dispatch st fs req res = (true, ensure_default_headers (h req res))) ∧
    (∀ (st : ServerState) (fs : Fs) (req : Request) (res : Response) (h : Handler),
        req.method = "POST".toList →
        mapFind (strip_query req.path) st.post_handlers_ = some h →
        dispatch st fs req res = (true, ensure_default_headers (h req res))) := by
  constructor
  · intro st fs req res h hm hl
    have hm2 : req.method ≠ ('P' :: 'O' :: 'S' :: 'T' :: []) := fun he => hm (he.trans rfl)
    have hsel : selectedHandlers st req = st.get_handlers_ := by
      simp [selectedHandlers, hm2]
    simp [dispatch, hsel, hl]
  · intro st fs req res h hm hl
    have hm2 : req.method = ('P' :: 'O' :: 'S' :: 'T' :: []) := hm.trans rfl
    have hsel : selectedHandlers st req = st.post_handlers_ := by
      simp [selectedHandlers, hm2]
    simp [dispatch, hsel, hl]

/-- C1 witness: a DELETE request to the GET route `/x` runs the GET
handler. -/
theorem c1_witness :
    dispatch demoServer emptyFs ⟨"DELETE".toList, "/x".toList, [], []⟩ {} =
      (true, ensure_default_headers (demoHandler ⟨"DELETE".toList, "/x".toList, [], []⟩ {})) :=
  c1_amended.1 demoServer emptyFs ⟨"DELETE".toList, "/x".toList, [], []⟩ {} demoHandler
    (by decide) rfl

/-- C7: whenever the (method, path) pair matches a registered route, the
response after dispatch has a Content-Type header: the one the handler set,
or the text/plain default when the handler set none. -/
theorem c7 :
    (∀ (st : ServerState) (fs : Fs) (req : Request) (res : Response) (h : Handler) (v : Bytes),
        mapFind (strip_query req.path) (selectedHandlers st req) = some h →
        mapFind ("Content-Type".toList) (h req res).headers = some v →
        mapFind ("Content-Type".toList) (dispatch st fs req res).2.headers = some v) ∧
    (∀ (st : ServerState) (fs : Fs) (req : Request) (res : Response) (h : Handler),
        mapFind (strip_query req.path) (selectedHandlers st req) = some h →
        mapFind ("Content-Type".toList) (h req res).headers = none →
        mapFind ("Content-Type".toList) (dispatch st fs req res).2.headers =
          some ("text/plain".toList)) := by
  constructor
  · intro st fs req res h v hl hset
    simp at hset
    simp [dispatch, hl, ensure_default_headers, hset]
  · intro st fs req res h hl hset
    simp at hset
    simp [dispatch, hl, ensure_default_headers, hset, mapFind_mapInsert_self]

/-- C7 witness: the demo GET route, whose handler sets no Content-Type,
yields the text/plain default. -/
theorem c7_witness :
    mapFind ("Content-Type".toList)
        (dispatch demoServer emptyFs ⟨"GET".toList, "/x".toList, [], []⟩ {}).2.headers =
      some ("text/plain".toList) :=
  c7.2 demoServer emptyFs ⟨"GET".toList, "/x".toList, [], []⟩ {} demoHandler rfl rfl

theorem relativeOf_self (mp : Bytes) : relativeOf mp mp = "index.html".toList := by
  simp [relativeOf, List.drop_length]

/-- C4: on a route miss, when the stripped path extends the mount prefix
and the computed remainder contains the substring `..`, dispatch answers
403 `forbidden` and returns — for any filesystem whatsoever, so no file is
ever opened. -/
theorem c4 (st : ServerState) (fs : Fs) (req : Request) (res : Response)
    (hmiss : mapFind (strip_query req.path) (selectedHandlers st req) = none)
    (hmp : st.mount_point_ ≠ [])
    (hpre : leadsWith st.mount_point_ (strip_query req.path) = true)
    (hdd : hasSub ("..".toList) (relativeOf st.mount_point_ (strip_query req.path)) = true) :
    dispatch st fs req res = (false, { res with status := 403, body := "forbidden".toList }) := by
  have hne : strip_query req.path ≠ st.mount_point_ := by
    intro he
    rw [he, relativeOf_self] at hdd
    exact absurd hdd (by decide)
  simp at hdd
  simp [dispatch, hmiss, hmp, hne, hpre, hdd]

/-- C4 witness: `/assets/../../etc/passwd` under mount prefix `/assets`
with directory `./public` yields 403 even on a filesystem where every file
exists and is readable. -/
theorem c4_witness :
    dispatch { get_handlers_ := [], post_handlers_ := [],
               mount_point_ := "/assets".toList, mount_dir_ := "./public".toList }
        (fun _ => some ("secret".toList))
        ⟨"GET".toList, "/assets/../../etc/passwd".toList, [], []⟩ {} =
      (false, { status := 403, body := "forbidden".toList, headers := [] }) :=
  c4 { get_handlers_ := [], post_handlers_ := [],
       mount_point_ := "/assets".toList, mount_dir_ := "./public".toList }
    (fun _ => some ("secret".toList))
    ⟨"GET".toList, "/assets/../../etc/passwd".toList, [], []⟩ {} rfl (by decide) (by decide)
    (by decide)

/-- C10: `set_mount_point` stores its arguments and returns true for every
pair; a freshly constructed server already has mount prefix "/" and
directory "."; hence on such a server the dispatch branch answering 404
because the mount point is empty is never taken (the static-file fallback
is active for every unmatched request). -/
theorem c10 :
    (∀ (mp dir : Bytes) (st : ServerState),
        (set_mount_point mp dir st).1 = true ∧
        (set_mount_point mp dir st).2.mount_point_ = mp ∧
        (set_mount_point mp dir st).2.mount_dir_ = dir) ∧
    (∀ (g p : List (Bytes × Handler)),
        ({ get_handlers_ := g, post_handlers_ := p } : ServerState).mount_point_ = "/".toList ∧
        ({ get_handlers_ := g, post_handlers_ := p } : ServerState).mount_dir_ = ".".toList) ∧
    (∀ (g p : List (Bytes × Handler)) (req : Request),
        emptyMountMiss { get_handlers_ := g, post_handlers_ := p } req = false) := by
  refine ⟨fun mp dir st => ⟨rfl, rfl, rfl⟩, fun g p => ⟨rfl, rfl⟩, fun g p req => ?_⟩
  simp [emptyMountMiss]

theorem sortedKeys_cons {α : Type} (p : Bytes × α) (l : List (Bytes × α)) :
    sortedKeys (p :: l) = (ltHead p.1 l && sortedKeys l) := by
  cases l with
  | nil => rfl
  | cons q t => rfl

theorem ltHead_mapInsert {α : Type} {x k : Bytes} (v : α) (m : List (Bytes × α))
    (hxk : bytesLt x k = true) (hm : ltHead x m = true) :
    ltHead x (mapInsert k v m) = true := by
  cases m with
  | nil => simpa [mapInsert, ltHead] using hxk
  | cons p rest =>
    obtain ⟨k2, v2⟩ := p
    by_cases h1 : bytesLt k k2 = true
    · simpa [mapInsert, h1, ltHead] using hxk
    · by_cases h2 : bytesLt k2 k = true
      · simpa [mapInsert, h1, h2, ltHead] using hm
      · simpa [mapInsert, h1, h2, ltHead] using hxk

theorem sortedKeys_mapInsert {α : Type} (k : Bytes) (v : α) :
    ∀ m : List (Bytes × α), sortedKeys m = true → sortedKeys (mapInsert k v m) = true := by
  intro m
  induction m with
  | nil => intro _; rfl
  | cons p rest ih =>
    intro hs
    obtain ⟨k2, v2⟩ := p
    rw [sortedKeys_cons] at hs
    obtain ⟨hlt, hrest⟩ := Bool.and_eq_true_iff.mp hs
    by_cases h1 : bytesLt k k2 = true
    · have : mapInsert k v ((k2, v2) :: rest) = (k, v) :: (k2, v2) :: rest := by
        simp [mapInsert, h1]
      rw [this, sortedKeys_cons]
      simp only [ltHead]
      rw [sortedKeys_cons]
      simp [h1, hlt, hrest]
    · by_cases h2 : bytesLt k2 k = true
      · have hins : mapInsert k v ((k2, v2) :: rest) = (k2, v2) :: mapInsert k v rest := by
          simp [mapInsert, h1, h2]
        rw [hins, sortedKeys_cons]
        have hh := ltHead_mapInsert (x := k2) (k := k) v rest h2 hlt
        simp [hh, ih hrest]
      · have hk : k = k2 :=
          bytesLt_conn (Bool.not_eq_true _ ▸ eq_false_of_ne_true h1)
            (Bool.not_eq_true _ ▸ eq_false_of_ne_true h2)
        have hins : mapInsert k v ((k2, v2) :: rest) = (k, v) :: rest := by
          simp [mapInsert, h1, h2]
        rw [hins, sortedKeys_cons]
        subst hk
        simp [hlt, hrest]

/-- C6: `send_response` writes the status line `HTTP/1.1 <status> <reason>`
with the reason from the fixed table (and "OK" for any unlisted code), then
every header of the map in its natural (ascending key) order, then a
computed `Content-Length:` equal to the body's byte length and a fixed
`Connection: close`, then the body.  The map invariant is preserved by
every header write, so the emission order is the map order. -/
theorem c6 :
    (∀ res : Response,
        send_response res =
          "HTTP/1.1 ".toList ++ intChars res.status ++ [' '] ++ status_message res.status ++ crlf
            ++ (res.headers.map (fun entry => entry.1 ++ ": ".toList ++ entry.2 ++ crlf)).flatten
            ++ "Content-Length: ".toList ++ natChars res.body.length ++ crlf
            ++ "Connection: close".toList ++ crlf ++ crlf
            ++ res.body) ∧
    (status_message 200 = "OK".toList ∧ status_message 201 = "Created".toList ∧
      status_message 204 = "No Content".toList ∧ status_message 400 = "Bad Request".toList ∧
      status_message 403 = "Forbidden".toList ∧ status_message 404 = "Not Found".toList ∧
      status_message 500 = "Internal Server Error".toList ∧
      status_message 503 = "Service Unavailable".toList) ∧
    (∀ s : Int, s ∉ ([200, 201, 204, 400, 403, 404, 500, 503] : List Int) →
        status_message s = "OK".toList) ∧
    (∀ (k v : Bytes) (m : List (Bytes × Bytes)),
        sortedKeys m = true → sortedKeys (mapInsert k v m) = true) := by
  refine ⟨fun res => rfl, ⟨rfl, rfl, rfl, rfl, rfl, rfl, rfl, rfl⟩, ?_, fun k v m => sortedKeys_mapInsert k v m⟩
  intro s hs
  simp only [List.mem_cons, List.mem_singleton, not_or] at hs
  obtain ⟨h1, h2, h3, h4, h5, h6, h7, h8, -⟩ := hs
  simp [status_message, h1, h2, h3, h4, h5, h6, h7, h8]

/-- C6 witness: an unlisted status defaults to "OK", and an insertion into
a concrete sorted header map stays sorted. -/
theorem c6_witness :
    status_message 299 = "OK".toList ∧
      sortedKeys (mapInsert ("b".toList) ("1".toList)
        [("a".toList, "0".toList), ("c".toList, "2".toList)]) = true :=
  ⟨c6.2.2.1 299 (by decide), c6.2.2.2 ("b".toList) ("1".toList) _ (by decide)⟩

theorem leadsWith_length {need hay : Bytes} (h : leadsWith need hay = true) :
    need.length ≤ hay.length := by
  induction need generalizing hay with
  | nil => simp
  | cons n ns ih =>
    cases hay with
    | nil => simp [leadsWith] at h
    | cons b bs =>
      simp only [leadsWith] at h
      split at h
      · have := ih h
        simp only [List.length_cons]
        omega
      · exact absurd h (by simp)

theorem leadsWith_append_inv (need B E : Bytes) (h : need.length ≤ B.length) :
    leadsWith need (B ++ E) = leadsWith need B := by
  induction need generalizing B with
  | nil => cases B <;> rfl
  | cons n ns ih =>
    cases B with
    | nil => simp at h
    | cons b bs =>
      simp only [List.cons_append, leadsWith, List.append_eq]
      rw [ih bs (by simpa using h)]

theorem findSubIdx_spec {need : Bytes} (hne : need ≠ []) :
    ∀ {hay : Bytes} {i : Nat}, findSubIdx need hay = some i →
      leadsWith need (hay.drop i) = true ∧ i + need.length ≤ hay.length ∧
        ∀ j < i, leadsWith need (hay.drop j) = false := by
  intro hay
  induction hay with
  | nil =>
    intro i h
    have : ¬ need.isEmpty := by simpa [List.isEmpty_iff] using hne
    simp [findSubIdx, this] at h
  | cons c t ih =>
    intro i h
    simp only [findSubIdx] at h
    by_cases hl : leadsWith need (c :: t) = true
    · rw [if_pos hl] at h
      obtain rfl : (0 : Nat) = i := by injection h
      refine ⟨by simpa using hl, by simpa using leadsWith_length hl, ?_⟩
      intro j hj
      omega
    · rw [if_neg hl] at h
      obtain ⟨i2, hi2, rfl⟩ := Option.map_eq_some'.mp h
      obtain ⟨hw, hlen, hmin⟩ := ih hi2
      refine ⟨by simpa [List.drop_succ_cons] using hw, by simp only [List.length_cons]; omega, ?_⟩
      intro j hj
      cases j with
      | zero => simpa using Bool.not_eq_true _ ▸ eq_false_of_ne_true hl
      | succ j2 =>
        rw [List.drop_succ_cons]
        exact hmin j2 (by omega)

theorem findSubIdx_complete {need : Bytes} (hne : need ≠ []) :
    ∀ {hay : Bytes} (i : Nat), leadsWith need (hay.drop i) = true →
      (∀ j < i, leadsWith need (hay.drop j) = false) →
      findSubIdx need hay = some i := by
  intro hay
  induction hay with
  | nil =>
    intro i h _
    rw [List.drop_nil] at h
    cases need with
    | nil => exact absurd rfl hne
    | cons n ns => simp [leadsWith] at h
  | cons c t ih =>
    intro i h hmin
    cases i with
    | zero =>
      rw [List.drop_zero] at h
      simp [findSubIdx, h]
    | succ i2 =>
      have h0 : leadsWith need (c :: t) = false := hmin 0 (Nat.succ_pos _)
      rw [List.drop_succ_cons] at h
      have hrec : findSubIdx need t = some i2 := by
        refine ih i2 h ?_
        intro j hj
        have := hmin (j + 1) (by omega)
        rwa [List.drop_succ_cons] at this
      simp [findSubIdx, h0, hrec]

theorem findSubIdx_stable {need : Bytes} (hne : need ≠ []) {B : Bytes} {i : Nat}
    (h : findSubIdx need B = some i) (E : Bytes) :
    findSubIdx need (B ++ E) = some i := by
  obtain ⟨h1, h2, h3⟩ := findSubIdx_spec hne h
  have hil : i ≤ B.length := by omega
  refine findSubIdx_complete hne i ?_ ?_
  · rw [List.drop_append_of_le_length hil,
      leadsWith_append_inv need (B.drop i) E (by rw [List.length_drop]; omega)]
    exact h1
  · intro j hj
    have hjl : j ≤ B.length := by omega
    rw [List.drop_append_of_le_length hjl,
      leadsWith_append_inv need (B.drop j) E (by rw [List.length_drop]; omega)]
    exact h3 j hj

theorem stInv_extend {B : Bytes} {st : Option (Nat × Nat)} (c : Bytes) (h : stInv B st) :
    stInv (B ++ c) st := by
  cases st with
  | none => trivial
  | some p =>
    obtain ⟨he, cl⟩ := p
    obtain ⟨hf, hcl⟩ := h
    have hspec := findSubIdx_spec (by decide : crlfcrlf ≠ []) hf
    refine ⟨findSubIdx_stable (by decide) hf c, ?_⟩
    rw [List.take_append_of_le_length (by
      have := hspec.2.1
      simp only [crlfcrlf, List.length_cons, List.length_nil] at this
      omega)]
    exact hcl

theorem read_loop_inv :
    ∀ (chunks : List Bytes) (B : Bytes) (st : Option (Nat × Nat)), stInv B st →
      stInv (read_loop chunks B st).1 (read_loop chunks B st).2 := by
  intro chunks
  induction chunks with
  | nil => intro B st h; exact h
  | cons c rest ih =>
    intro B st h
    by_cases hce : c.isEmpty
    · simpa [read_loop, hce] using h
    · have hbase : stInv (B ++ c) st := stInv_extend c h
      cases st with
      | some p =>
        obtain ⟨he, cl⟩ := p
        by_cases hdone : he + 4 + cl ≤ B.length + c.length
        · simpa [read_loop, hce, hdone] using hbase
        · by_cases hshort : c.length < 4096
          · simpa [read_loop, hce, hdone, hshort] using hbase
          · simpa [read_loop, hce, hdone, hshort] using ih (B ++ c) (some (he, cl)) hbase
      | none =>
        cases hf : findSubIdx crlfcrlf (B ++ c) with
        | none =>
          by_cases hshort : c.length < 4096
          · simp [read_loop, hce, hf, hshort, stInv]
          · simpa [read_loop, hce, hf, hshort] using ih (B ++ c) none trivial
        | some he =>
          have hst2 : stInv (B ++ c) (some (he, extract_content_length ((B ++ c).take (he + 2)))) :=
            ⟨hf, rfl⟩
          by_cases hdone :
              he + 4 + extract_content_length ((B ++ c).take (he + 2)) ≤ B.length + c.length
          · simpa [read_loop, hce, hf, hdone] using hst2
          · by_cases hshort : c.length < 4096
            · simpa [read_loop, hce, hf, hdone, hshort] using hst2
            · simpa [read_loop, hce, hf, hdone, hshort] using
                ih (B ++ c) (some (he, extract_content_length ((B ++ c).take (he + 2)))) hst2

theorem parse_request_fields {raw : Bytes} {he cl : Nat} {pr : ParsedRequest}
    (hp : parse_request raw he cl = some pr) :
    pr.header_end = he ∧ pr.content_length = cl ∧
      pr.request.body = (raw.drop (he + 4)).take cl := by
  unfold parse_request at hp
  cases hle : findSubIdx crlf raw with
  | none => rw [hle] at hp; simp at hp
  | some line_end =>
    rw [hle] at hp
    dsimp only at hp
    split at hp
    · simp at hp
    · obtain rfl := (Option.some_inj.mp hp).symm
      exact ⟨rfl, rfl, rfl⟩

theorem extractGo_zero :
    ∀ lines : List Bytes,
      (∀ line ∈ lines, ∀ colon, line.findIdx? (· == ':') = some colon →
        case_insensitive_equal (trim (line.take colon)) ("Content-Length".toList) = false) →
      extractGo lines = 0 := by
  intro lines
  induction lines with
  | nil => intro _; rfl
  | cons line rest ih =>
    intro h
    unfold extractGo
    cases hc : line.findIdx? (· == ':') with
    | none => exact ih fun l hl => h l (List.mem_cons_of_mem _ hl)
    | some colon =>
      dsimp only
      rw [h line (List.mem_cons_self _ _) colon hc]
      simp only [Bool.false_eq_true, if_false]
      exact ih fun l hl => h l (List.mem_cons_of_mem _ hl)

/-- C3: for every successfully framed and parsed request, the body length
equals exactly the Content-Length value the framer extracted by scanning
the header block (the state invariantly holds the first terminator index
and that extraction); the extracted value is 0 when no header line carries
the key `Content-Length` case-insensitively, and `strtoull` yields 0 when
the trimmed value has no leading digits (non-numeric). -/
theorem c3 :
    (∀ (chunks : List Bytes) (pr : ParsedRequest), read_request chunks = some pr →
      pr.request.body.length = pr.content_length ∧
      findSubIdx crlfcrlf (read_loop chunks [] none).1 = some pr.header_end ∧
      pr.content_length =
        extract_content_length ((read_loop chunks [] none).1.take (pr.header_end + 2))) ∧
    (∀ hdrs : Bytes,
      (∀ line ∈ splitCRLF hdrs, ∀ colon, line.findIdx? (· == ':') = some colon →
        case_insensitive_equal (trim (line.take colon)) ("Content-Length".toList) = false) →
      extract_content_length hdrs = 0) ∧
    (∀ v : Bytes, ((stripSign v).2.takeWhile cIsDigit).isEmpty = true → strtoullM v = 0) := by
  refine ⟨?_, ?_, ?_⟩
  · intro chunks pr hp
    have hinv := read_loop_inv chunks [] none trivial
    unfold read_request at hp
    dsimp only at hp
    split at hp
    · simp at hp
    · cases hst : (read_loop chunks [] none).2 with
      | some p =>
        obtain ⟨he, cl⟩ := p
        rw [hst] at hp hinv
        dsimp only at hp
        obtain ⟨hf, hcl⟩ := hinv
        split at hp
        · simp at hp
        · rename_i hsize
          obtain ⟨hhe, hclf, hbody⟩ := parse_request_fields hp
          refine ⟨?_, ?_, ?_⟩
          · rw [hbody, hclf, List.length_take, List.length_drop]
            omega
          · rw [hhe]; exact hf
          · rw [hhe, hclf]; exact hcl
      | none =>
        rw [hst] at hp
        dsimp only at hp
        cases hf2 : findSubIdx crlfcrlf (read_loop chunks [] none).1 with
        | none => rw [hf2] at hp; simp at hp
        | some he =>
          rw [hf2] at hp
          dsimp only at hp
          split at hp
          · simp at hp
          · rename_i hsize
            obtain ⟨hhe, hclf, hbody⟩ := parse_request_fields hp
            refine ⟨?_, ?_, ?_⟩
            · rw [hbody, hclf, List.length_take, List.length_drop]
              omega
            · rw [hhe]
            · rw [hhe, hclf]
  · intro hdrs h
    exact extractGo_zero (splitCRLF hdrs) h
  · intro v h
    unfold strtoullM
    rcases hsp : stripSign v with ⟨neg, s2⟩
    rw [hsp] at h
    dsimp only at h
    simp [h]

/-- C3 witness: a concrete GET request framed in one read parses with a
5-byte body matching its Content-Length. -/
theorem c3_witness :
    read_request ["GET /x HTTP/1.1\r\nContent-Length: 5\r\n\r\nhello".toList] =
      some { request := { method := "GET".toList, path := "/x".toList,
                          body := "hello".toList,
                          headers := [("Content-Length".toList, "5".toList)] },
             header_end := 34, content_length := 5 } ∧
    ({ request := { method := "GET".toList, path := "/x".toList,
                    body := "hello".toList,
                    headers := [("Content-Length".toList, "5".toList)] },
       header_end := 34, content_length := 5 } : ParsedRequest).request.body.length =
      ({ request := { method := "GET".toList, path := "/x".toList,
                      body := "hello".toList,
                      headers := [("Content-Length".toList, "5".toList)] },
         header_end := 34, content_length := 5 } : ParsedRequest).content_length :=
  ⟨by decide, (c3.1 ["GET /x HTTP/1.1\r\nContent-Length: 5\r\n\r\nhello".toList]
      { request := { method := "GET".toList, path := "/x".toList,
                     body := "hello".toList,
                     headers := [("Content-Length".toList, "5".toList)] },
        header_end := 34, content_length := 5 } (by decide)).1⟩

theorem flatten_ne_nil {chunks : List Bytes} (hne : chunks ≠ [])
    (h : ∀ c ∈ chunks, c ≠ []) : chunks.flatten ≠ [] := by
  cases chunks with
  | nil => exact absurd rfl hne
  | cons c rest =>
    have hc : c ≠ [] := h c (List.mem_cons_self _ _)
    cases c with
    | nil => exact absurd rfl hc
    | cons a t => simp

theorem read_loop_complete (W : Bytes) (he cl : Nat)
    (hfind : findSubIdx crlfcrlf W = some he)
    (hcl : extract_content_length (W.take (he + 2)) = cl)
    (hlen : W.length = he + 4 + cl) :
    ∀ (chunks : List Bytes) (B : Bytes) (st : Option (Nat × Nat)),
      chunks ≠ [] → B ++ chunks.flatten = W → (∀ c ∈ chunks, c ≠ []) →
      fullButLast chunks = true →
      (st = none ∨ st = some (he, cl)) →
      read_loop chunks B st = (W, some (he, cl)) := by
  intro chunks
  induction chunks with
  | nil => intro B st h; exact absurd rfl h
  | cons c rest ih =>
    intro B st _ hjoin hcs hfull hst
    have hc : c ≠ [] := hcs c (List.mem_cons_self _ _)
    have hcE : c.isEmpty = false := by simpa [List.isEmpty_iff] using hc
    cases rest with
    | nil =>
      have hW : B ++ c = W := by simpa using hjoin
      have hdone : he + 4 + cl ≤ B.length + c.length := by
        have := congrArg List.length hW
        rw [List.length_append] at this
        omega
      have hdoneW : he + 4 + cl ≤ W.length := le_of_eq hlen.symm
      rcases hst with rfl | rfl
      · simp [read_loop, hcE, hW, hfind, hcl, hdoneW]
      · simp [read_loop, hcE, hW, hdoneW]
    | cons r rest2 =>
      have hfull2 : c.length = 4096 ∧ fullButLast (r :: rest2) = true := by
        have : ((c.length == 4096) && fullButLast (r :: rest2)) = true := hfull
        simpa [Bool.and_eq_true, beq_iff_eq] using this
      have hassoc : (B ++ c) ++ (r :: rest2).flatten = W := by
        simpa [List.append_assoc] using hjoin
      have hXne : (r :: rest2).flatten ≠ [] :=
        flatten_ne_nil (by simp) (fun x hx => hcs x (List.mem_cons_of_mem _ hx))
      have hlt : (B ++ c).length < W.length := by
        have := congrArg List.length hassoc
        rw [List.length_append] at this
        have hpos : 0 < ((r :: rest2).flatten).length :=
          List.length_pos.mpr hXne
        omega
      have hndone : ¬ (he + 4 + cl ≤ B.length + c.length) := by
        have : (B ++ c).length = B.length + c.length := List.length_append B c
        omega
      have hnshort : ¬ (c.length < 4096) := by omega
      rcases hst with rfl | rfl
      · cases hf2 : findSubIdx crlfcrlf (B ++ c) with
        | none =>
          have hrec := ih (B ++ c) none (by simp) hassoc
            (fun x hx => hcs x (List.mem_cons_of_mem _ hx)) hfull2.2 (Or.inl rfl)
          simpa [read_loop, hcE, hf2, hnshort] using hrec
        | some i =>
          have hiW : findSubIdx crlfcrlf W = some i := by
            rw [← hassoc]
            exact findSubIdx_stable (by decide) hf2 _
          have hieq : i = he := by
            rw [hfind] at hiW
            exact (Option.some_inj.mp hiW).symm
          subst hieq
          have hspec := findSubIdx_spec (by decide : crlfcrlf ≠ []) hf2
          have h4 : i + 4 ≤ (B ++ c).length := by
            have h := hspec.2.1
            rw [show crlfcrlf.length = 4 from rfl] at h
            omega
          have htake : W.take (i + 2) = (B ++ c).take (i + 2) := by
            rw [← hassoc]
            exact List.take_append_of_le_length (by omega)
          have hcl2 : extract_content_length ((B ++ c).take (i + 2)) = cl := by
            rw [← htake]; exact hcl
          have hrec := ih (B ++ c) (some (i, cl)) (by simp) hassoc
            (fun x hx => hcs x (List.mem_cons_of_mem _ hx)) hfull2.2 (Or.inr rfl)
          simpa [read_loop, hcE, hf2, hcl2, hndone, hnshort] using hrec
      · have hrec := ih (B ++ c) (some (he, cl)) (by simp) hassoc
          (fun x hx => hcs x (List.mem_cons_of_mem _ hx)) hfull2.2 (Or.inr rfl)
        simpa [read_loop, hcE, hndone, hnshort] using hrec

/-- C5: framing is reassembly-order-independent outside the recognized
early-exit limitation.  For a wire sequence that is exactly a header block
(first terminator at `he`, declared length `cl`) followed by a `cl`-byte
body, delivering it in any number of nonempty reads of at most the chunk
size, all full except possibly the last (so no read falls short of the
chunk size before the request is complete), produces the same parsed
request as a single read, and a successful parse has a body of exactly
`cl` bytes. -/
theorem c5 (W : Bytes) (he cl : Nat) (chunks : List Bytes)
    (hfind : findSubIdx crlfcrlf W = some he)
    (hcl : extract_content_length (W.take (he + 2)) = cl)
    (hlen : W.length = he + 4 + cl)
    (hne : chunks ≠ [])
    (hjoin : chunks.flatten = W)
    (hsz : ∀ c ∈ chunks, c ≠ [] ∧ c.length ≤ 4096)
    (hfull : fullButLast chunks = true) :
    read_request chunks = read_request [W] ∧
      ∀ pr : ParsedRequest, read_request [W] = some pr → pr.request.body.length = cl := by
  have hspecW := findSubIdx_spec (by decide : crlfcrlf ≠ []) hfind
  have hWlen : he + 4 ≤ W.length := by
    have h := hspecW.2.1
    rw [show crlfcrlf.length = 4 from rfl] at h
    omega
  have hWne : W ≠ [] := by
    intro h
    rw [h] at hWlen
    simp at hWlen
  have h1 : read_loop chunks [] none = (W, some (he, cl)) :=
    read_loop_complete W he cl hfind hcl hlen chunks [] none hne (by simpa using hjoin)
      (fun x hx => (hsz x hx).1) hfull (Or.inl rfl)
  have h2 : read_loop [W] [] none = (W, some (he, cl)) :=
    read_loop_complete W he cl hfind hcl hlen [W] [] none (by simp) (by simp)
      (by simpa using hWne) rfl (Or.inl rfl)
  constructor
  · unfold read_request
    rw [h1, h2]
  · intro pr hpr
    unfold read_request at hpr
    rw [h2] at hpr
    dsimp only at hpr
    split at hpr
    · simp at hpr
    · split at hpr
      · simp at hpr
      · obtain ⟨hhe, hclf, hbody⟩ := parse_request_fields hpr
        rw [hbody, List.length_take, List.length_drop]
        omega

/-- C5 witness: a concrete request with a 3-byte body delivered as a
single read parses with exactly 3 body bytes. -/
theorem c5_witness :
    read_request ["GET / HTTP/1.1\r\nContent-Length: 3\r\n\r\nabc".toList] =
      some { request := { method := "GET".toList, path := "/".toList,
                          body := "abc".toList,
                          headers := [("Content-Length".toList, "3".toList)] },
             header_end := 33, content_length := 3 } ∧
    ({ request := { method := "GET".toList, path := "/".toList,
                    body := "abc".toList,
                    headers := [("Content-Length".toList, "3".toList)] },
       header_end := 33, content_length := 3 } : ParsedRequest).request.body.length = 3 :=
  ⟨by decide,
    (c5 ("GET / HTTP/1.1\r\nContent-Length: 3\r\n\r\nabc".toList) 33 3
        ["GET / HTTP/1.1\r\nContent-Length: 3\r\n\r\nabc".toList]
        (by decide) (by decide) (by decide) (by decide) (by decide)
        (by decide) rfl).2
      { request := { method := "GET".toList, path := "/".toList,
                     body := "abc".toList,
                     headers := [("Content-Length".toList, "3".toList)] },
        header_end := 33, content_length := 3 } (by decide)⟩

/-- C8: the GET `/registry` handler responds 503 with the `no_registry`
error body exactly when the registry's ok flag is false, and otherwise
responds 200 with the registry document's dump as the body (Content-Type
application/json in both cases). -/
theorem c8 (reg : Registry) (req : Request) :
    (reg.ok = false →
      registryHandler reg req {} =
        { status := 503, body := errNoRegistry,
          headers := [("Content-Type".toList, "application/json".toList)] }) ∧
    (reg.ok = true →
      registryHandler reg req {} =
        { status := 200, body := jdump reg.root,
          headers := [("Content-Type".toList, "application/json".toList)] }) ∧
    (∀ (content : Bytes) (j : Json), jparse content = .ok j →
      load_registry (some content) = { root := j, ok := true }) ∧
    (load_registry none).ok = false ∧
    (∀ content : Bytes, jparse content = .error () →
      (load_registry (some content)).ok = false) := by
  refine ⟨?_, ?_, ?_, rfl, ?_⟩
  · intro h
    simp [registryHandler, h, Response.set_content, mapInsert]
  · intro h
    simp [registryHandler, h, Response.set_content, mapInsert]
  · intro content j h
    simp [load_registry, h]
  · intro content h
    simp [load_registry, h]

/-- C8 witness: a failed registry load yields the 503 error response. -/
theorem c8_witness :
    registryHandler ⟨Json.null, false⟩ ⟨"GET".toList, "/registry".toList, [], []⟩ {} =
      { status := 503, body := errNoRegistry,
        headers := [("Content-Type".toList, "application/json".toList)] } :=
  (c8 ⟨Json.null, false⟩ ⟨"GET".toList, "/registry".toList, [], []⟩).1 rfl

/-- C9: the claim says every syntactically valid JSON body yields 200.
It does not: the body `{"seed":"x"}` is valid JSON (it parses), yet the
handler answers 400 `bad_json`, because `get<int>` runs `std::stoi` on the
string seed and the exception is caught by the same catch-all. -/
theorem c9_counterexample :
    jparse ("\x7b\"seed\":\"x\"\x7d".toList) =
      .ok (Json.obj [("seed".toList, Json.str ("x".toList))]) ∧
    (resolveHandler ⟨"POST".toList, "/resolve".toList,
        "\x7b\"seed\":\"x\"\x7d".toList, []⟩ {}).status = 400 ∧
    (resolveHandler ⟨"POST".toList, "/resolve".toList,
        "\x7b\"seed\":\"x\"\x7d".toList, []⟩ {}).body = errBadJson :=
  ⟨rfl, rfl, rfl⟩

/-- C9 (amended): the POST `/resolve` handler responds 400 `bad_json`
exactly when parsing the body throws or the Node extraction throws (a
non-numeric string seed); every body that parses and extracts responds 200
with the resolver's payload.  Missing fields of an object default to
title "", arcana "0", seed 33; a non-object valid JSON value yields the
default-constructed node (arcana "", not "0" — observationally identical
digit sum). -/
theorem c9_amended (body : Bytes) :
    (jparse body = .error () →
      resolveHandler ⟨"POST".toList, "/resolve".toList, body, []⟩ {} =
        { status := 400, body := errBadJson,
          headers := [("Content-Type".toList, "application/json".toList)] }) ∧
    (∀ j : Json, jparse body = .ok j → getNode j = .error () →
      resolveHandler ⟨"POST".toList, "/resolve".toList, body, []⟩ {} =
        { status := 400, body := errBadJson,
          headers := [("Content-Type".toList, "application/json".toList)] }) ∧
    (∀ (j : Json) (n : Node), jparse body = .ok j → getNode j = .ok n →
      resolveHandler ⟨"POST".toList, "/resolve".toList, body, []⟩ {} =
        { status := 200, body := jdump (resolvePayload (resolve n)),
          headers := [("Content-Type".toList, "application/json".toList)] }) ∧
    getNode (Json.obj []) =
      .ok { title := [], arcana := "0".toList, seed := 33, timestamp := [] } ∧
    (∀ j : Json, jsonIsObj j = false →
      getNode j = .ok { title := [], arcana := [], seed := 33, timestamp := [] }) := by
  refine ⟨?_, ?_, ?_, rfl, ?_⟩
  · intro h
    simp [resolveHandler, h, Response.set_content, mapInsert]
  · intro j h1 h2
    simp [resolveHandler, h1, h2, Response.set_content, mapInsert]
  · intro j n h1 h2
    simp [resolveHandler, h1, h2, Response.set_content, mapInsert]
  · intro j h
    simp [getNode, h]

set_option maxRecDepth 8192 in
set_option exponentiation.threshold 1200 in
/-- C9 witness: the body `1e309` is JSON-shaped but overflows double, so
`std::stod` throws inside the parser and the handler answers 400
`bad_json`. -/
theorem c9_witness :
    resolveHandler ⟨"POST".toList, "/resolve".toList, "1e309".toList, []⟩ {} =
      { status := 400, body := errBadJson,
        headers := [("Content-Type".toList, "application/json".toList)] } :=
  (c9_amended ("1e309".toList)).1 rfl
